import Mathlib

/-!
Verification of the DQMaster rule-validation engine against its specification.

Sources embedded here: src/main.py (pydantic schema models, _validate_group,
_update_project_in_db, _import_excel_to_db, _run_validation_async,
validate_project_data, result aggregation), src/database.py
(normalize_name_for_sqlite), src/rules/unique_value.py,
src/dqmaster/services/validation_service.py and src/dqmaster/core/storage.py.

Python integers are unbounded and are modelled as Nat/Int; the progress
percentage is a Python float that only ever holds exact small rationals here,
modelled as ℚ.  Cell values reaching the validators are always strings:
the importing pipeline coerces every column to text (main.py line 637).
-/

namespace DQMaster

/-- Parameter map attached to a rule (the `params` dict in the source); values are
kept as strings, which is enough because every modelled consumer treats the map
opaquely or reads string-convertible entries. -/
abbrev PMap := List (String × String)

/-- A value returned by a row-mode validator: plugins return either a bare bool or
a dict carrying is_valid and an optional errors detail (main.py lines 778, 935). -/
inductive PyResult where
  | bool (b : Bool)
  | dict (is_valid : Bool) (errors : Option String)
deriving DecidableEq

/-- Coercion of a plugin result to a pass/fail bool (main.py lines 778 and 935):
a bare bool is used as is, a dict contributes its is_valid entry.  (The source's
result.get("is_valid", False) default cannot fire here because the dict
constructor always carries the flag.) -/
def coerceIsValid : PyResult → Bool
  | .bool b => b
  | .dict v _ => v

/-- Detail extraction from a plugin result (main.py line 936): None for a bare
bool, the errors entry for a dict. -/
def resultDetails : PyResult → Option String
  | .bool _ => none
  | .dict _ e => e

/-- What the one registered Python callable of a column-mode plugin returns when
it is applied to the whole column.  rules/unique_value.py registers its
module-level validate stub, which ignores the column and returns a dict whose
is_valid is the scalar False; rules/spell_check.py returns a dict whose is_valid
is a plain Python list of bools.  A plugin may also raise. -/
inductive ColumnResult where
  | scalar (is_valid : Bool) (errors : Option String)
  | lists (is_valid : List Bool) (errors : List (Option String))
  | raised
deriving DecidableEq

/-- One entry of RULE_REGISTRY (main.py load_rules, lines 229-239).  The source
stores a single callable under "validator"; `validator` is its behaviour on one
cell (row mode) and `columnCall` its behaviour on a whole indexed column (column
mode, main.py line 888). -/
structure RuleDef where
  name : String
  validator : String → PMap → PyResult
  formatter : Option (PMap → String)
  needs_column_access : Bool
  columnCall : List (Nat × String) → PMap → ColumnResult

/-- Python dict.get on a map represented as an association list: the value bound
to the key, none when absent. -/
def alookup {ρ : Type} (k : String) : List (String × ρ) → Option ρ
  | [] => none
  | p :: t => if p.1 = k then some p.2 else alookup k t

/-- RULE_REGISTRY as an association list from rule-type id to its definition. -/
abbrev Registry := List (String × RuleDef)

/-- RULE_REGISTRY.get(rule_id). -/
def regGet (reg : Registry) (id : String) : Option RuleDef :=
  alookup id reg

/-- One member of a rule group (main.py RuleInGroup, lines 129-131). -/
structure RuleInGroup where
  id : String
  params : Option PMap
deriving DecidableEq

/-- A rule group (main.py RuleGroup, lines 133-137). -/
structure RuleGroup where
  id : String
  name : String
  logic : String
  rules : List RuleInGroup
deriving DecidableEq

/-- Result dict of _validate_group (main.py lines 788-791). -/
structure GroupResult where
  is_valid : Bool
  errors : Option String
deriving DecidableEq

/-- The verdict _validate_group collects for one member: the registry is
consulted with the member's rule id (main.py lines 769-779); an unresolved id is
skipped (continue), a resolved one contributes its coerced validator verdict.
The source passes params = rule_ref.params or {} and all modelled validators
accept the params argument. -/
def memberVerdict (reg : Registry) (value : String) (rr : RuleInGroup) : Option Bool :=
  (regGet reg rr.id).map (fun rd => coerceIsValid (rd.validator value (rr.params.getD [])))

/-- main.py _validate_group (lines 765-791): collect the member verdicts; under
logic "AND" report an error iff every collected verdict is a failure, under any
other logic (the source's else branch, used for "OR") iff at least one is; on
error the group's own name is the reported detail. -/
def validate_group (reg : Registry) (value : String) (group : RuleGroup) : GroupResult :=
  let results := group.rules.filterMap (memberVerdict reg value)
  let is_error :=
    if group.logic = "AND" then results.all (fun r => !r)
    else results.any (fun r => !r)
  { is_valid := !is_error, errors := if is_error then some group.name else none }

/-- A rule bound to a field (main.py Rule, lines 95-101).  Python-truthiness of
empty strings is not modelled: rule ids are uuids and type ids registry keys,
never the empty string. -/
structure Rule where
  id : String
  type : Option String
  group_id : Option String
  value : Option String
  params : Option PMap
  order : Int
deriving DecidableEq

/-- Rule.check_type_or_group_id_exists (main.py lines 103-109), the pre root
validator run on the raw input values. -/
def check_type_or_group_id_exists (type group_id : Option String) :
    Except String Unit :=
  if type.isNone && group_id.isNone then
    .error "Either type or group_id must be provided."
  else if type.isSome && group_id.isSome then
    .error "Cannot provide both type and group_id."
  else .ok ()

/-- Constructing a pydantic Rule (main.py lines 95-109): the root validator runs
before field assembly and rejects the two malformed shapes; otherwise the model
is built with the given values. -/
def mkRule (id : String) (type group_id value : Option String) (params : Option PMap)
    (order : Int) : Except String Rule :=
  match check_type_or_group_id_exists type group_id with
  | .error e => .error e
  | .ok _ => .ok ⟨id, type, group_id, value, params, order⟩

/-- A field (main.py FieldSchema, lines 111-115). -/
structure FieldSchema where
  id : String
  name : String
  is_required : Bool
  rules : List Rule
deriving DecidableEq

/-- A sheet (main.py SheetSchema, lines 117-121). -/
structure SheetSchema where
  id : String
  name : String
  is_active : Bool
  fields : List FieldSchema
deriving DecidableEq

/-- A file (main.py FileSchema, lines 123-127). -/
structure FileSchema where
  id : String
  name : String
  saved_name : String
  sheets : List SheetSchema
deriving DecidableEq

/-- A project (main.py Project, lines 139-146); timestamps kept as strings. -/
structure Project where
  id : String
  name : String
  description : String
  created_at : String
  updated_at : String
  files : List FileSchema
  auto_revalidate : Bool
deriving DecidableEq

/-! ### Name normalization (src/database.py, lines 217-231) -/

/-- Python str.lower on the character list (ASCII inputs here). -/
def pyLower (s : String) : String := String.mk (s.toList.map Char.toLower)

/-- Python str.strip with no argument: whitespace removed from both ends. -/
def pyStrip (s : String) : String :=
  String.mk ((s.toList.dropWhile Char.isWhitespace).reverse.dropWhile
    Char.isWhitespace).reverse

/-- Membership in the regex class \w, restricted to ASCII as the modelled inputs
are ASCII; the source also admits other Unicode word characters, which none of
the verified properties depend on. -/
def pyIsWordChar (c : Char) : Bool := c.isAlphanum || c == '_'

/-- Collapse of runs of underscores to a single underscore (re.sub applied to
__+); the flag says whether the previous kept character was an underscore. -/
def collapseFrom : Bool → List Char → List Char
  | _, [] => []
  | prevU, c :: rest =>
    if c == '_' then
      if prevU then collapseFrom true rest else '_' :: collapseFrom true rest
    else c :: collapseFrom false rest

/-- Collapse of runs of underscores to a single underscore. -/
def collapseUnderscores (l : List Char) : List Char := collapseFrom false l

/-- database.normalize_name_for_sqlite: replace non-word characters by
underscores, collapse underscore runs, strip leading and trailing underscores,
lowercase. -/
def normalize_name_for_sqlite (name : String) : String :=
  let s1 := name.toList.map (fun c => if pyIsWordChar c then c else '_')
  let s2 := collapseUnderscores s1
  let s3 := (s2.dropWhile (fun c => c == '_')).reverse.dropWhile (fun c => c == '_')
  pyLower (String.mk s3.reverse)

/-! ### Keyed tables and upserts (src/main.py _update_project_in_db) -/

/-- SQLite INSERT .. ON CONFLICT(id) DO UPDATE against a table whose primary key
is the id column: the conflicting row is updated in place, otherwise the new row
is appended. -/
def upsert {ρ : Type} (k : String) (v : ρ) : List (String × ρ) → List (String × ρ)
  | [] => [(k, v)]
  | p :: t => if p.1 = k then (k, v) :: t else p :: upsert k v t

/-- Folding a sequence of upserts into a table, in statement order. -/
def applyUpserts {ρ : Type} (t : List (String × ρ)) (ops : List (String × ρ)) :
    List (String × ρ) :=
  ops.foldl (fun acc op => upsert op.1 op.2 acc) t

/-- Non-key columns written by the sheets upsert (main.py lines 476-485). -/
structure SheetUp where
  file_id : String
  name : String
  is_active : Bool
deriving DecidableEq

/-- Non-key columns written by the fields upsert (main.py lines 488-497). -/
structure FieldUp where
  sheet_id : String
  name : String
  is_required : Bool
deriving DecidableEq

/-- Non-key columns written by the rules upsert (main.py lines 500-516). -/
structure RuleUp where
  field_id : String
  rule_type : Option String
  group_id : Option String
  params : Option PMap
  order_num : Int
deriving DecidableEq

/-- The structural tables of one project database touched by a full update. -/
structure StructDB where
  sheets : List (String × SheetUp)
  fields : List (String × FieldUp)
  rules : List (String × RuleUp)
deriving DecidableEq

/-- The sheet upserts issued for a full-update request, in loop order
(main.py lines 473-485). -/
def sheetOps (p : Project) : List (String × SheetUp) :=
  p.files.flatMap (fun f => f.sheets.map (fun s => (s.id, ⟨f.id, s.name, s.is_active⟩)))

/-- The field upserts issued for a full-update request, in loop order
(main.py lines 486-497). -/
def fieldOps (p : Project) : List (String × FieldUp) :=
  p.files.flatMap (fun f => f.sheets.flatMap (fun s =>
    s.fields.map (fun fd => (fd.id, ⟨s.id, fd.name, fd.is_required⟩))))

/-- The rule upserts issued for a full-update request, in loop order
(main.py lines 498-516). -/
def ruleOps (p : Project) : List (String × RuleUp) :=
  p.files.flatMap (fun f => f.sheets.flatMap (fun s => s.fields.flatMap (fun fd =>
    fd.rules.map (fun r => (r.id, ⟨fd.id, r.type, r.group_id, r.params, r.order⟩)))))

/-- main.py _update_project_in_db (lines 443-534): one transaction upserting
every sheet, field and rule of the submitted snapshot, keyed by entity id.  The
source interleaves the three tables along the nested loop; upserts against
different tables commute, so they are grouped per table here with the per-table
order exactly that of the loop. -/
def update_project_in_db (db : StructDB) (p : Project) : StructDB :=
  { sheets := applyUpserts db.sheets (sheetOps p)
    fields := applyUpserts db.fields (fieldOps p)
    rules := applyUpserts db.rules (ruleOps p) }

/-! ### Validation status records (main.py ValidationStatus and
dqmaster/core/storage.py) -/

/-- One status record (main.py ValidationStatus, lines 168-177). -/
structure VStatus where
  is_running : Bool
  current_file : String
  current_sheet : String
  current_field : String
  current_rule : String
  processed_rows : Nat
  total_rows : Nat
  percentage : ℚ
  message : String
deriving DecidableEq

/-- The VALIDATION_STATUS map, project id to latest record. -/
abbrev StatusMap := List (String × VStatus)

/-- The snapshot written by the start endpoint (main.py lines 999-1003). -/
def initialStartStatus : VStatus :=
  ⟨true, "", "", "", "", 0, 0, 0, "Запуск проверки..."⟩

/-- Outcome of the start endpoint visible to the caller. -/
inductive StartResponse where
  | notFound
  | started
deriving DecidableEq

/-- main.py validate_project_data (lines 992-1006): 404 when the project
directory is missing; otherwise the status record is overwritten with a fresh
running snapshot and a new validation task is created unconditionally — the
previous record's running flag is never consulted.  The Bool of the result
records whether asyncio.create_task was called. -/
def validate_project_data (statusMap : StatusMap) (project_dir_exists : Bool)
    (pid : String) : StartResponse × StatusMap × Bool :=
  if !project_dir_exists then (.notFound, statusMap, false)
  else (.started, upsert pid initialStartStatus statusMap, true)

/-- dqmaster/core/storage.py StatusStorage.is_running: the stored record's flag,
with the default (not running) record for an absent project id. -/
def statusIsRunning (m : StatusMap) (pid : String) : Bool :=
  match alookup pid m with
  | some s => s.is_running
  | none => false

/-- dqmaster/services/validation_service.py ValidationService.start_validation
(lines 146-152): raise ValidationError when the tracker already flags a running
validation for the project, otherwise create the background task. -/
def start_validation (m : StatusMap) (pid : String) : Except String Unit :=
  if statusIsRunning m pid then
    .error "Валидация для этого проекта уже выполняется"
  else .ok ()

/-! ### Validation errors and the required-field aggregate -/

/-- One entry of the all_errors list (main.py lines 892-898 and 942-947).  The
source stores str(value), with the literal ПУСТО for NaN cells; cell values here
are always strings, so the value is stored as is. -/
structure ValidationError where
  file_name : String
  sheet_name : String
  field_name : String
  is_required : Bool
  row : Nat
  error_type : String
  value : String
  details : Option String
deriving DecidableEq

/-- The f-string key built for one error (main.py lines 977 and 1060). -/
def errorRowKey (e : ValidationError) : String :=
  e.file_name ++ "-" ++ e.sheet_name ++ "-" ++ toString e.row

/-- main.py lines 976-979 (and identically lines 1059-1060): the number of
distinct concatenated keys among the errors flagged on required fields; stored
as error_rows and reported as required_field_error_rows_count. -/
def requiredFieldErrorRowsCount (all_errors : List ValidationError) : Nat :=
  ((all_errors.filter (fun e => e.is_required)).map errorRowKey).dedup.length

/-! ### The validation orchestrator (main.py _run_validation_async) -/

/-- One status write of the running loop; only the fields driven by the counters
are recorded (main.py lines 903-906 and 955-959 write processed_rows and
percentage; the current_* names and message are display-only). -/
structure StatusUpdate where
  processed_rows : Nat
  percentage : ℚ
deriving DecidableEq

/-- The mutable state threaded through one run: the processed-operation counter,
the accumulated all_errors list, and the ordered trace of status writes. -/
structure RunState where
  processed : Nat
  errors : List ValidationError
  trace : List StatusUpdate
deriving DecidableEq

/-- The percentage written with a status update (main.py lines 905 and 958):
processed / total * 100 when total is positive, else 0.  No 99-percent cap is
applied anywhere in the source. -/
def statusPct (total processed : Nat) : ℚ :=
  if 0 < total then (processed : ℚ) / (total : ℚ) * 100 else 0

/-- VALIDATION_STATUS[project_id].update with the current counters. -/
def pushUpdate (total : Nat) (st : RunState) : RunState :=
  { st with trace := st.trace ++ [⟨st.processed, statusPct total st.processed⟩] }

/-- Append freshly emitted errors and advance the processed counter. -/
def emitAndCount (errs : List ValidationError) (n : Nat) (st : RunState) : RunState :=
  { st with errors := st.errors ++ errs, processed := st.processed + n }

/-- The sheets-table row consulted by the orchestrator (row_count at line 815,
data_table_name at line 853). -/
structure SheetMetaRow where
  row_count : Nat
  data_table_name : Option String
deriving DecidableEq

/-- The project database as the orchestrator reads it: sheet metadata by sheet
id, the column names of a data table (PRAGMA table_info, line 864) and the
(_row_id, value) pairs of one column in _row_id order (lines 880 and 910). -/
structure RunDB where
  sheetMeta : String → Option SheetMetaRow
  tableCols : String → List String
  tableColumn : String → String → List (Nat × String)

/-- Denormalized names and the required flag attached to every emitted error. -/
structure ErrCtx where
  file_name : String
  sheet_name : String
  field_name : String
  is_required : Bool

/-- Whether a rule goes to the column_rules bucket (main.py line 872): it has a
type whose registry entry carries needs_column_access. -/
def isColumnRule (reg : Registry) (rc : Rule) : Bool :=
  match rc.type with
  | some t =>
    match regGet reg t with
    | some rd => rd.needs_column_access
    | none => false
  | none => false

/-- The (rule, registry entry) pairs appended to column_rules, in order
(main.py lines 870-875). -/
def columnRulePairs (reg : Registry) (rules : List Rule) : List (Rule × RuleDef) :=
  rules.filterMap (fun rc =>
    match rc.type with
    | some t =>
      match regGet reg t with
      | some rd => if rd.needs_column_access then some (rc, rd) else none
      | none => none
    | none => none)

/-- Stable sort of a field's rules by their order attribute
(sorted(field_schema.rules, key=lambda r: r.order), main.py line 871). -/
def insertByOrder (r : Rule) : List Rule → List Rule
  | [] => [r]
  | x :: xs => if x.order ≤ r.order then x :: insertByOrder r xs else r :: x :: xs

/-- Insertion sort by order; sorted(...) is stable and so is this. -/
def sortRulesByOrder : List Rule → List Rule
  | [] => []
  | r :: rs => insertByOrder r (sortRulesByOrder rs)

/-- One column-mode rule on one loaded column (main.py lines 884-906).  The
registered callable is applied to the column (line 888) and the invalid rows are
then selected by column_series[~res.is_valid].  Every reachable shape of
res.is_valid makes that selection raise:
* a scalar Python bool b (the unique_value stub): ~b is the int -1 or -2, and
  label lookup of a negative label in the 1-based _row_id index raises KeyError;
* a plain Python list (the spell_check shape): unary ~ on a list raises
  TypeError;
* a raising plugin propagates its own exception out of the res assignment.
The per-rule handler at line 899 catches and logs the exception, so no error is
recorded; the processed counter still advances by the column length (line 902)
and the status is updated (lines 903-906). -/
def columnRuleStep (total : Nat) (col : List (Nat × String)) (rd : RuleDef)
    (params : PMap) (st : RunState) : RunState :=
  let emitted : List ValidationError :=
    match rd.columnCall col params with
    | .scalar _ _ => []
    | .lists _ _ => []
    | .raised => []
  pushUpdate total (emitAndCount emitted col.length st)

/-- Evaluation of one row-mode rule on one cell (main.py lines 916-951): the
errors to append (none or one) and whether the processed counter advances — the
continue for a rule with neither type nor group id (line 939) skips the
increment at line 953, every other path reaches it. -/
def rowRuleOutcome (reg : Registry) (groups : List (String × RuleGroup))
    (ctx : ErrCtx) (rc : Rule) (row_id : Nat) (value : String) :
    List ValidationError × Bool :=
  match rc.group_id with
  | some gid =>
    match alookup gid groups with
    | some group =>
      let result := validate_group reg value group
      if result.is_valid then ([], true)
      else ([⟨ctx.file_name, ctx.sheet_name, ctx.field_name, ctx.is_required,
              row_id, "Группа: " ++ group.name, value, result.errors⟩], true)
    | none => ([], true)
  | none =>
    match rc.type with
    | some t =>
      match regGet reg t with
      | some rd =>
        let rule_name :=
          match rd.formatter, rc.params with
          | some f, some ps => if ps.isEmpty then rd.name else f ps
          | _, _ => rd.name
        let res := rd.validator value (rc.params.getD [])
        if coerceIsValid res then ([], true)
        else ([⟨ctx.file_name, ctx.sheet_name, ctx.field_name, ctx.is_required,
                row_id, rule_name, value, resultDetails res⟩], true)
      | none => ([], true)
    | none => ([], false)

/-- One data row under the row-mode rules (main.py lines 915-959): every rule is
evaluated on the cell, then the status is updated once for the row.  The source
streams rows with fetchmany(1000); batching does not change the per-row
processing order, so rows are folded directly. -/
def rowStep (reg : Registry) (groups : List (String × RuleGroup)) (ctx : ErrCtx)
    (total : Nat) (row_rules : List Rule) (st : RunState) (row : Nat × String) :
    RunState :=
  let st := row_rules.foldl (fun st rc =>
    let out := rowRuleOutcome reg groups ctx rc row.1 row.2
    emitAndCount out.1 (if out.2 then 1 else 0) st) st
  pushUpdate total st

/-- One field of an active sheet (main.py lines 860-959): skip the field when its
normalized column is absent from the data table; otherwise split the
order-sorted rules into column rules and row rules, run the column rules on the
loaded column, then stream the column through the row rules. -/
def processField (db : RunDB) (reg : Registry) (groups : List (String × RuleGroup))
    (total : Nat) (fileName sheetName tableName : String) (field : FieldSchema)
    (st : RunState) : RunState :=
  let ncol := normalize_name_for_sqlite field.name
  if (db.tableCols tableName).contains ncol then
    let sorted := sortRulesByOrder field.rules
    let column_rules := columnRulePairs reg sorted
    let row_rules := sorted.filter (fun rc => !isColumnRule reg rc)
    let col := db.tableColumn tableName ncol
    let st := column_rules.foldl
      (fun st pr => columnRuleStep total col pr.2 (pr.1.params.getD []) st) st
    if row_rules.isEmpty then st
    else col.foldl
      (rowStep reg groups ⟨fileName, sheetName, field.name, field.is_required⟩
        total row_rules) st
  else st

/-- One sheet (main.py lines 844-961): inactive sheets are skipped, as are sheets
without a sheets-table row or without a data_table_name. -/
def processSheet (db : RunDB) (reg : Registry) (groups : List (String × RuleGroup))
    (total : Nat) (fileName : String) (st : RunState) (sheet : SheetSchema) :
    RunState :=
  if !sheet.is_active then st
  else
    match db.sheetMeta sheet.id with
    | none => st
    | some m =>
      match m.data_table_name with
      | none => st
      | some tableName =>
        sheet.fields.foldl
          (fun st f => processField db reg groups total fileName sheet.name tableName f st)
          st

/-- Total number of rules attached to a sheet's fields (main.py line 819). -/
def sheetRuleCount (s : SheetSchema) : Nat :=
  s.fields.foldl (fun a fd => a + fd.rules.length) 0

/-- The contribution of one sheet to total_operations (main.py lines 813-820):
zero for an inactive sheet or one without a sheets-table row, else
row_count * number of rules on the sheet's fields. -/
def sheetContribution (db : RunDB) (s : SheetSchema) : Nat :=
  if !s.is_active then 0
  else
    match db.sheetMeta s.id with
    | none => 0
    | some m => m.row_count * sheetRuleCount s

/-- total_operations (main.py lines 808-820). -/
def totalOperations (db : RunDB) (project : Project) : Nat :=
  project.files.foldl
    (fun acc f => f.sheets.foldl (fun acc2 s => acc2 + sheetContribution db s) acc) 0

/-- The running loops of _run_validation_async (main.py lines 842-966), started
from fresh counters. -/
def runValidationCore (db : RunDB) (reg : Registry)
    (groups : List (String × RuleGroup)) (project : Project) : RunState :=
  let total := totalOperations db project
  project.files.foldl
    (fun st f => f.sheets.foldl (processSheet db reg groups total f.name) st)
    ⟨0, [], []⟩

/-- A whole successful run: the loops followed by the completion update
(main.py line 988), which sets percentage 100.0 and leaves the processed counter
where it ended. -/
def runValidation (db : RunDB) (reg : Registry)
    (groups : List (String × RuleGroup)) (project : Project) : RunState :=
  let st := runValidationCore db reg groups project
  { st with trace := st.trace ++ [⟨st.processed, 100⟩] }

/-! ### The uniqueness rule (src/rules/unique_value.py) -/

/-- The comparison key validate_column derives for the entry at one position:
none for a cell that is blank after strip (excluded from the uniqueness check),
otherwise the stripped value, lowercased when case sensitivity is off. -/
def uniqueKeyAt (case_sensitive : Bool) (column : List String) (i : Nat) :
    Option String :=
  (column.get? i).bind (fun s =>
    let t := pyStrip s
    if t = "" then none else some (if case_sensitive then t else pyLower t))

/-- rules/unique_value.py validate_column (lines 31-76) on a column carrying the
default 0-based index, so that the Series labels written into the Python lists
coincide with positions: duplicated(keep=False) marks every occurrence of a
repeated non-empty key; marked positions get is_valid False and the error text,
all others stay valid. -/
def unique_value_validate_column (column : List String) (case_sensitive : Bool) :
    List Bool × List (Option String) :=
  let dup := fun i =>
    match uniqueKeyAt case_sensitive column i with
    | none => false
    | some k => (List.range column.length).any
        (fun j => j != i && uniqueKeyAt case_sensitive column j == some k)
  ((List.range column.length).map (fun i => !dup i),
   (List.range column.length).map (fun i =>
     if dup i then some "Значение не уникально в этом столбце" else none))

/-- The RULE_REGISTRY entry for unique_value, as load_rules builds it (main.py
lines 228-239): the registered "validator" is the module-level validate function
of rules/unique_value.py (lines 78-83) — the stub that ignores its argument and
returns a dict with the scalar is_valid False — NOT validate_column, which no
caller in the repository invokes.  The formatter models format_name
(lines 23-29) with a checkbox value rendered as the string "false". -/
def unique_value_ruleDef : RuleDef :=
  { name := "Уникальное значение"
    validator := fun _ _ => .dict false (some "Ошибка конфигурации правила")
    formatter := some (fun params =>
      if (alookup "case_sensitive" params).getD "true" == "false" then
        "Уникальное значение (без учета регистра)"
      else "Уникальное значение (с учетом регистра)")
    needs_column_access := true
    columnCall := fun _ _ => .scalar false (some "Ошибка конфигурации правила") }

/-! ### Row-mode validators used in concrete scenarios -/

/-- rules/not_empty.py validate on a string cell: a str is never NaN, so the
check reduces to being non-blank after strip. -/
def not_empty_validate (value : String) (_ : PMap) : PyResult :=
  .bool (!(pyStrip value == ""))

/-- Registry entry for not_empty; columnCall is never consulted because
needs_column_access is false. -/
def not_empty_ruleDef : RuleDef :=
  ⟨"Не пустое", not_empty_validate, none, false, fun _ _ => .raised⟩

/-- rules/digits_only.py validate on a string cell: empty strings pass, any other
string must consist of digits (str.isdigit, ASCII inputs here). -/
def digits_only_validate (value : String) (_ : PMap) : PyResult :=
  .bool (if value == "" then true else value.toList.all Char.isDigit)

/-- Registry entry for digits_only; columnCall is never consulted. -/
def digits_only_ruleDef : RuleDef :=
  ⟨"Только цифры", digits_only_validate, none, false, fun _ _ => .raised⟩

/-! ### The import pipeline (main.py _import_excel_to_db) -/

/-- A files-table row. -/
structure FileRow where
  id : String
  original_name : String
  saved_name : String
deriving DecidableEq

/-- A sheets-table row. -/
structure SheetRow where
  id : String
  file_id : String
  name : String
  data_table_name : Option String
  row_count : Nat
  is_active : Bool
deriving DecidableEq

/-- A fields-table row. -/
structure FieldRow where
  id : String
  sheet_id : String
  name : String
  is_required : Bool
deriving DecidableEq

/-- One dynamically created data table: its column names and its rows. -/
structure DataTable where
  cols : List String
  rows : List (List String)
deriving DecidableEq

/-- The structural state of one project database as the import touches it. -/
structure ProjectDB where
  files : List FileRow
  sheets : List SheetRow
  fields : List FieldRow
  tables : List (String × DataTable)
deriving DecidableEq

/-- One parsed sheet of the uploaded workbook: tab name, header row, data rows
already coerced to text (main.py lines 634-637). -/
structure SheetData where
  name : String
  header : List String
  rows : List (List String)
deriving DecidableEq

/-- A parsed workbook. -/
abbrev Workbook := List SheetData

/-- Transaction bookkeeping during one import: the state the sqlite file would
show after a rollback (everything up to the most recent commit) and the state
seen inside the open transaction.  ctr feeds the uuid supply. -/
structure ImportState where
  committed : ProjectDB
  current : ProjectDB
  ctr : Nat

/-- One sheet of the upload inside the open transaction (main.py lines 621-675),
statements in source order: INSERT INTO sheets; UPDATE sheets SET
data_table_name, row_count; CREATE TABLE — which raises
sqlite3.OperationalError (duplicate column name) when two spreadsheet columns
normalize to the same identifier; INSERT INTO fields, one per original column;
df.to_sql for a non-empty sheet.  pandas drives a raw sqlite3 connection
through its own transaction helper, which calls conn.commit() after inserting —
that commit ends the surrounding BEGIN transaction, so everything written so
far becomes durable at that point. -/
def importSheet (ids : Nat → String) (fileId : String) (st : ImportState)
    (sd : SheetData) : Except String ImportState :=
  let sheet_id := ids st.ctr
  let row0 : SheetRow := ⟨sheet_id, fileId, sd.name, none, 0, true⟩
  let cur : ProjectDB := { st.current with sheets := st.current.sheets ++ [row0] }
  let tn := "data_sheet_" ++ normalize_name_for_sqlite sd.name ++ "_" ++ sheet_id.take 8
  let updRow : SheetRow → SheetRow := fun r =>
    if r.id = sheet_id then
      { r with data_table_name := some tn, row_count := sd.rows.length }
    else r
  let cur : ProjectDB := { cur with sheets := cur.sheets.map updRow }
  let ncols := sd.header.map normalize_name_for_sqlite
  if ncols.Nodup then
    let emptyTable : DataTable := ⟨ncols, []⟩
    let cur : ProjectDB := { cur with tables := cur.tables ++ [(tn, emptyTable)] }
    let newFields : List FieldRow :=
      sd.header.enum.map (fun p => ⟨ids (st.ctr + 1 + p.1), sheet_id, p.2, false⟩)
    let cur : ProjectDB := { cur with fields := cur.fields ++ newFields }
    let filled : DataTable := ⟨ncols, sd.rows⟩
    let cur : ProjectDB := { cur with tables := cur.tables.map (fun t =>
      if t.1 = tn then (tn, filled) else t) }
    let committed := if sd.rows.isEmpty then st.committed else cur
    .ok ⟨committed, cur, st.ctr + 1 + sd.header.length⟩
  else .error "duplicate column name"

/-- The sheet loop: a raising sheet aborts the loop; the state reached so far is
returned together with the success flag. -/
def importSheets (ids : Nat → String) (fileId : String) :
    List SheetData → ImportState → ImportState × Bool
  | [], st => (st, true)
  | sd :: rest, st =>
    match importSheet ids fileId st sd with
    | .ok st2 => importSheets ids fileId rest st2
    | .error _ => (st, false)

/-- main.py _import_excel_to_db (lines 595-701).  A malformed workbook (none)
raises at pd.ExcelFile before any database statement is issued.  Otherwise a
transaction is begun, the files row inserted (line 616), the sheets imported in
order; on success conn.commit() publishes the transaction state, on a sheet
failure conn.rollback() discards what was written after the most recent commit
— which, because of the to_sql commits inside the loop, is not necessarily the
state from before the upload. -/
def import_excel_to_db (ids : Nat → String) (db : ProjectDB)
    (file_id original_filename saved_filename : String) (wb : Option Workbook) :
    ProjectDB × Bool :=
  match wb with
  | none => (db, false)
  | some sheets =>
    let st0 : ImportState :=
      ⟨db, { db with files := db.files ++ [⟨file_id, original_filename, saved_filename⟩] }, 0⟩
    match importSheets ids file_id sheets st0 with
    | (st, true) => (st.current, true)
    | (st, false) => (st.committed, false)

/-! ### Invariant of the status trace -/

/-- Facts maintained by every status write of one run: the written percentage is
the fraction formula over the written counter, the written counters are
non-decreasing, and no written counter exceeds the live one. -/
def TraceOK (total : Nat) (st : RunState) : Prop :=
  (∀ u ∈ st.trace, u.percentage = statusPct total u.processed_rows)
  ∧ List.Chain' (fun a b => a ≤ b) (st.trace.map (fun u => u.processed_rows))
  ∧ (∀ u ∈ st.trace, u.processed_rows ≤ st.processed)

/-! ### Concrete scenarios -/

/-- A registry holding the two modelled row-mode plugins. -/
def regRow : Registry :=
  [("not_empty", not_empty_ruleDef), ("digits_only", digits_only_ruleDef)]

/-- An OR group over digits_only and not_empty: on the value "x" the first
member fails and the second passes (the §8 example of the spec). -/
def gOr : RuleGroup :=
  ⟨"g2", "Группа проверок", "OR", [⟨"digits_only", none⟩, ⟨"not_empty", none⟩]⟩

/-- An AND group whose single member id resolves nowhere. -/
def gVac : RuleGroup := ⟨"g1", "G", "AND", [⟨"no_such_rule", none⟩]⟩

/-- A status map holding a running record for project p1. -/
def busyMap : StatusMap := [("p1", initialStartStatus)]

/-- Project database for the uniqueness scenario: one sheet s1 with three data
rows whose _row_id labels start at 1, as the AUTOINCREMENT key does. -/
def dbC4 : RunDB :=
  { sheetMeta := fun sid => if sid = "s1" then some ⟨3, some "data_sheet_s1_x"⟩ else none
    tableCols := fun tn => if tn = "data_sheet_s1_x" then ["col1"] else []
    tableColumn := fun tn c =>
      if tn = "data_sheet_s1_x" && c = "col1" then [(1, "a"), (2, "a"), (3, "b")] else [] }

/-- Registry holding the uniqueness rule. -/
def regC4 : Registry := [("unique_value", unique_value_ruleDef)]

/-- Project with one field col1 carrying one column-mode uniqueness rule. -/
def projC4 : Project :=
  ⟨"p", "P", "", "", "",
    [⟨"f1", "wb.xlsx", "f1.xlsx",
      [⟨"s1", "S1", true,
        [⟨"fld1", "col1", true, [⟨"r1", some "unique_value", none, none, none, 1⟩]⟩]⟩]⟩],
    true⟩

/-- Project database for the progress scenario: one active sheet with one data
row. -/
def dbC6 : RunDB :=
  { sheetMeta := fun sid => if sid = "s1" then some ⟨1, some "t1"⟩ else none
    tableCols := fun tn => if tn = "t1" then ["c1"] else []
    tableColumn := fun tn c => if tn = "t1" && c = "c1" then [(1, "")] else [] }

/-- Project with one field c1 carrying one row-mode not_empty rule. -/
def projC6 : Project :=
  ⟨"p", "P", "", "", "",
    [⟨"f1", "wb.xlsx", "f1.xlsx",
      [⟨"s1", "S1", true,
        [⟨"fld1", "c1", false, [⟨"r1", some "not_empty", none, none, none, 1⟩]⟩]⟩]⟩],
    true⟩

/-- A deterministic uuid supply for the import scenario. -/
def idsDemo : Nat → String := fun n => "id" ++ toString n

/-- An empty project database. -/
def dbEmpty : ProjectDB := ⟨[], [], [], []⟩

/-- A two-sheet workbook: S1 imports cleanly with one data row; S2 has two
columns A B and A_B which both normalize to a_b, so its CREATE TABLE raises. -/
def wbDemo : Workbook :=
  [⟨"S1", ["a"], [["x"]]⟩, ⟨"S2", ["A B", "A_B"], []⟩]

/-- An empty structural database. -/
def dbNil : StructDB := ⟨[], [], []⟩

/-- A one-file, one-sheet snapshot submitted as a full update. -/
def projUp : Project :=
  ⟨"p", "P", "", "", "",
    [⟨"F1", "wb.xlsx", "f.xlsx",
      [⟨"S1", "Sheet1", true,
        [⟨"FL1", "Имя", true, [⟨"R1", some "not_empty", none, none, none, 1⟩]⟩]⟩]⟩],
    true⟩

/-- A required-field error whose file name contains a hyphen. -/
def errHyphenFile : ValidationError :=
  ⟨"a-b", "c", "f1", true, 1, "Не пустое", "v", none⟩

/-- A required-field error on a different sheet of a different file that builds
the same concatenated key. -/
def errHyphenSheet : ValidationError :=
  ⟨"a", "b-c", "f1", true, 1, "Не пустое", "v", none⟩

/-! ## Theorems -/

/-- Claim C2: constructing a Rule with both of type and group_id set, or with
neither set, fails with a validation error; every successfully constructed Rule
has exactly one of type and group_id set. -/
theorem mkRule_xor (id : String) (t g v : Option String) (p : Option PMap) (o : Int) :
    (((t = none ∧ g = none) ∨ (t.isSome = true ∧ g.isSome = true)) →
      ∃ e, mkRule id t g v p o = .error e)
  ∧ (∀ r, mkRule id t g v p o = .ok r →
      ((r.type.isSome = true ∧ r.group_id = none)
        ∨ (r.type = none ∧ r.group_id.isSome = true))) := by
  constructor
  · rintro (⟨rfl, rfl⟩ | ⟨ht, hg⟩)
    · exact ⟨_, rfl⟩
    · obtain ⟨a, rfl⟩ := Option.isSome_iff_exists.mp ht
      obtain ⟨b, rfl⟩ := Option.isSome_iff_exists.mp hg
      exact ⟨_, rfl⟩
  · cases t <;> cases g <;> intro r hr
    · exact absurd hr (by simp [mkRule, check_type_or_group_id_exists])
    · injection hr with h
      simp [← h]
    · injection hr with h
      simp [← h]
    · exact absurd hr (by simp [mkRule, check_type_or_group_id_exists])

/-- Witness for C2: both-none is rejected, and a type-only rule construction
lands in the exactly-one shape. -/
theorem mkRule_xor_witness :
    (∃ e, mkRule "r1" none none none none 0 = .error e)
  ∧ (∀ r, mkRule "r1" (some "not_empty") none none none 0 = .ok r →
      ((r.type.isSome = true ∧ r.group_id = none)
        ∨ (r.type = none ∧ r.group_id.isSome = true))) :=
  ⟨(mkRule_xor "r1" none none none none 0).1 (Or.inl ⟨rfl, rfl⟩),
   (mkRule_xor "r1" (some "not_empty") none none none 0).2⟩

/-- Counterexample to claim C3: with a running record in the tracker for p1, the
main.py start endpoint still answers started and creates a second validation
task instead of rejecting the request. -/
theorem start_while_running_not_rejected :
    statusIsRunning busyMap "p1" = true
  ∧ (validate_project_data busyMap true "p1").1 = .started
  ∧ (validate_project_data busyMap true "p1").2.2 = true := by
  decide

/-- Claim C3 as amended: main.py's validate_project_data never consults the
running flag — whenever the project directory exists it overwrites the status
and starts a task; only dqmaster's ValidationService.start_validation rejects a
start exactly when the tracker's running flag is set. -/
theorem start_validation_semantics (m : StatusMap) (pid : String) :
    ((validate_project_data m true pid).1 = .started
      ∧ (validate_project_data m true pid).2.2 = true)
  ∧ (statusIsRunning m pid = true → ∃ e, start_validation m pid = .error e)
  ∧ (statusIsRunning m pid = false → start_validation m pid = .ok ()) := by
  refine ⟨⟨rfl, rfl⟩, ?_, ?_⟩ <;> intro h <;> simp [start_validation, h]

/-- Witness for the amended C3: the busy map makes start_validation reject while
the main endpoint starts. -/
theorem start_validation_semantics_witness :
    ((validate_project_data busyMap true "p1").1 = .started
      ∧ (validate_project_data busyMap true "p1").2.2 = true)
  ∧ (∃ e, start_validation busyMap "p1" = .error e) :=
  ⟨(start_validation_semantics busyMap "p1").1,
   (start_validation_semantics busyMap "p1").2.1 rfl⟩

/-- Claim C5 (code bug): the two-sheet upload whose second sheet fails at CREATE
TABLE does not roll back to the pre-upload state: the import reports failure,
yet sheet S1 and its data table remain committed, because pandas' to_sql commits
the surrounding transaction after inserting S1's rows.  A workbook failing
before any statement (unparseable, none) does leave the database unchanged. -/
theorem import_excel_partial_commit :
    (import_excel_to_db idsDemo dbEmpty "f1" "wb.xlsx" "f1.xlsx" (some wbDemo)).2 = false
  ∧ (import_excel_to_db idsDemo dbEmpty "f1" "wb.xlsx" "f1.xlsx" (some wbDemo)).1 ≠ dbEmpty
  ∧ ((import_excel_to_db idsDemo dbEmpty "f1" "wb.xlsx" "f1.xlsx" (some wbDemo)).1).sheets.map
      (fun r => r.name) = ["S1"]
  ∧ ((import_excel_to_db idsDemo dbEmpty "f1" "wb.xlsx" "f1.xlsx" (some wbDemo)).1).tables.map
      (fun t => (t.1, t.2.rows)) = [("data_sheet_s1_id0", [["x"]])]
  ∧ import_excel_to_db idsDemo dbEmpty "f1" "wb.xlsx" "f1.xlsx" none = (dbEmpty, false) := by
  decide

/-- Counterexample to claim C8: two errors on required fields of distinct
(file, sheet, row) triples build the same concatenated key a-b-c-1, so the
stored count is 1 where the claim demands 2. -/
theorem required_rows_key_collision :
    errHyphenFile.file_name ≠ errHyphenSheet.file_name
  ∧ errHyphenFile.is_required = true ∧ errHyphenSheet.is_required = true
  ∧ requiredFieldErrorRowsCount [errHyphenFile, errHyphenSheet] = 1 := by
  decide

/-- Claim C8 as amended: required_field_error_rows_count is the number of
distinct concatenated file-sheet-row key strings among the errors on required
fields (distinct triples whose names contain hyphens may collide); an error on a
required field contributes its key to that set, and an error on a non-required
field never changes the count. -/
theorem requiredFieldErrorRowsCount_spec (l : List ValidationError) :
    requiredFieldErrorRowsCount l =
      ((l.filter (fun e => e.is_required)).map errorRowKey).toFinset.card
  ∧ (∀ e ∈ l, e.is_required = true →
      errorRowKey e ∈ ((l.filter (fun e => e.is_required)).map errorRowKey).toFinset)
  ∧ (∀ e, e.is_required = false →
      requiredFieldErrorRowsCount (e :: l) = requiredFieldErrorRowsCount l) := by
  refine ⟨(List.card_toFinset _).symm, ?_, ?_⟩
  · intro e he hreq
    simp only [List.mem_toFinset, List.mem_map]
    exact ⟨e, List.mem_filter.mpr ⟨he, by simp [hreq]⟩, rfl⟩
  · intro e hreq
    simp [requiredFieldErrorRowsCount, List.filter_cons, hreq]

/-- Witness for the amended C8: instantiated on the collision pair, whose first
entry is a required-field error. -/
theorem requiredFieldErrorRowsCount_spec_witness :
    errHyphenFile ∈ [errHyphenFile, errHyphenSheet]
  ∧ errHyphenFile.is_required = true
  ∧ errorRowKey errHyphenFile ∈
      (([errHyphenFile, errHyphenSheet].filter (fun e => e.is_required)).map
        errorRowKey).toFinset :=
  ⟨by decide, by decide,
   (requiredFieldErrorRowsCount_spec [errHyphenFile, errHyphenSheet]).2.1
     errHyphenFile (by decide) (by decide)⟩

/-- Claim C4 (code bug): with the column a,a,b under a column-mode uniqueness
rule, the run emits no validation error at all — load_rules registered the
module-level validate stub of rules/unique_value.py, whose scalar False verdict
makes the orchestrator's invalid-row selection raise (caught and logged at line
899) — though the processed counter still advances by the column length.
validate_column, which no code in the repository calls, computes exactly the
verdicts the claim describes: the two a rows invalid, the b row valid. -/
theorem unique_value_run_emits_nothing :
    (runValidationCore dbC4 regC4 [] projC4).errors = []
  ∧ (runValidationCore dbC4 regC4 [] projC4).processed = 3
  ∧ unique_value_validate_column ["a", "a", "b"] true =
      ([false, false, true],
       [some "Значение не уникально в этом столбце",
        some "Значение не уникально в этом столбце", none]) := by
  decide

/-- Claim C1: for every value and every group whose member rule ids all resolve
in the registry, _validate_group reports an error under logic AND iff every
member judges the value invalid, under logic OR iff at least one member does;
the group's own name is the reported detail exactly when an error is
reported. -/
theorem validate_group_spec (reg : Registry) (v : String) (g : RuleGroup)
    (hres : ∀ rr ∈ g.rules, (memberVerdict reg v rr).isSome = true) :
    (g.logic = "AND" →
      ((validate_group reg v g).is_valid = false ↔
        ∀ rr ∈ g.rules, memberVerdict reg v rr = some false))
  ∧ (g.logic = "OR" →
      ((validate_group reg v g).is_valid = false ↔
        ∃ rr ∈ g.rules, memberVerdict reg v rr = some false))
  ∧ ((validate_group reg v g).errors =
      if (validate_group reg v g).is_valid then none else some g.name) := by
  have handiff : ((g.rules.filterMap (memberVerdict reg v)).all (fun r => !r) = true) ↔
      ∀ rr ∈ g.rules, memberVerdict reg v rr = some false := by
    rw [List.all_eq_true]
    constructor
    · intro h rr hrr
      obtain ⟨b, hb⟩ := Option.isSome_iff_exists.mp (hres rr hrr)
      have hbR := h b (List.mem_filterMap.mpr ⟨rr, hrr, hb⟩)
      cases b
      · exact hb
      · simp at hbR
    · intro h b hbR
      obtain ⟨rr, hrr, hmv⟩ := List.mem_filterMap.mp hbR
      rw [h rr hrr] at hmv
      injection hmv with hb
      rw [← hb]
      rfl
  have horiff : ((g.rules.filterMap (memberVerdict reg v)).any (fun r => !r) = true) ↔
      ∃ rr ∈ g.rules, memberVerdict reg v rr = some false := by
    rw [List.any_eq_true]
    constructor
    · rintro ⟨b, hbR, hb⟩
      obtain ⟨rr, hrr, hmv⟩ := List.mem_filterMap.mp hbR
      cases b
      · exact ⟨rr, hrr, hmv⟩
      · simp at hb
    · rintro ⟨rr, hrr, hmv⟩
      exact ⟨false, List.mem_filterMap.mpr ⟨rr, hrr, hmv⟩, rfl⟩
  refine ⟨?_, ?_, ?_⟩
  · intro hlog
    rw [← handiff]
    simp [validate_group, hlog]
  · intro hlog
    rw [← horiff]
    simp [validate_group, hlog]
  · simp only [validate_group]
    have hswap : ∀ (c : Bool) (nm : String),
        (if c = true then some nm else none) = if (!c) = true then none else some nm := by
      intro c nm
      cases c <;> simp
    exact hswap _ _

/-- Witness for C1: the OR group over digits_only (fails on x) and not_empty
(passes on x) resolves fully, and its error report is characterized by the
existence of a failing member. -/
theorem validate_group_spec_witness :
    (∀ rr ∈ gOr.rules, (memberVerdict regRow "x" rr).isSome = true)
  ∧ ((validate_group regRow "x" gOr).is_valid = false ↔
      ∃ rr ∈ gOr.rules, memberVerdict regRow "x" rr = some false) :=
  ⟨by decide, (validate_group_spec regRow "x" gOr (by decide)).2.1 rfl⟩

/-- The row loop over a field holding a single group rule whose group always
reports an error: each row contributes exactly one error named after the
group. -/
theorem rowloop_group_errors (reg : Registry) (groups : List (String × RuleGroup))
    (ctx : ErrCtx) (total : Nat) (grule : Rule) (gid : String) (g : RuleGroup)
    (hg : grule.group_id = some gid) (hlook : alookup gid groups = some g)
    (hvg : ∀ value, validate_group reg value g = ⟨false, some g.name⟩) :
    ∀ (col : List (Nat × String)) (st : RunState),
      (col.foldl (rowStep reg groups ctx total [grule]) st).errors
        = st.errors ++ col.map (fun rv =>
            (⟨ctx.file_name, ctx.sheet_name, ctx.field_name, ctx.is_required, rv.1,
              "Группа: " ++ g.name, rv.2, some g.name⟩ : ValidationError)) := by
  intro col
  induction col with
  | nil => simp
  | cons rv rest ih =>
    intro st
    have hstep : (rowStep reg groups ctx total [grule] st rv).errors
        = st.errors ++ [(⟨ctx.file_name, ctx.sheet_name, ctx.field_name,
            ctx.is_required, rv.1, "Группа: " ++ g.name, rv.2, some g.name⟩ :
            ValidationError)] := by
      simp [rowStep, pushUpdate, emitAndCount, rowRuleOutcome, hg, hlook, hvg rv.2]
    rw [List.foldl_cons, ih, hstep]
    simp

/-- Claim C10: a group none of whose member ids resolve collects no verdicts;
under logic AND the vacuous all-members-failed condition reports every value
invalid with the group name as detail, under logic OR the group reports valid;
consequently a field holding only such an AND group flags every row of its
column as an error. -/
theorem empty_group_vacuous_and (reg : Registry) (v : String) (g : RuleGroup)
    (hnone : ∀ rr ∈ g.rules, regGet reg rr.id = none) :
    (g.logic = "AND" → validate_group reg v g = ⟨false, some g.name⟩)
  ∧ (g.logic = "OR" → validate_group reg v g = ⟨true, none⟩)
  ∧ (∀ (db : RunDB) (groups : List (String × RuleGroup)) (total : Nat)
      (fN sN tN gid : String) (field : FieldSchema) (st : RunState) (grule : Rule),
      g.logic = "AND" → field.rules = [grule] → grule.type = none →
      grule.group_id = some gid → alookup gid groups = some g →
      (db.tableCols tN).contains (normalize_name_for_sqlite field.name) = true →
      (processField db reg groups total fN sN tN field st).errors
        = st.errors ++ (db.tableColumn tN (normalize_name_for_sqlite field.name)).map
            (fun rv => (⟨fN, sN, field.name, field.is_required, rv.1,
              "Группа: " ++ g.name, rv.2, some g.name⟩ : ValidationError))) := by
  have hnil : g.rules.filterMap (memberVerdict reg v) = [] := by
    rw [List.filterMap_eq_nil_iff]
    intro rr hrr
    simp [memberVerdict, hnone rr hrr]
  have hAND : ∀ w, (∀ rr ∈ g.rules, regGet reg rr.id = none) →
      g.logic = "AND" → validate_group reg w g = ⟨false, some g.name⟩ := by
    intro w hn hlog
    have hnilw : g.rules.filterMap (memberVerdict reg w) = [] := by
      rw [List.filterMap_eq_nil_iff]
      intro rr hrr
      simp [memberVerdict, hn rr hrr]
    simp [validate_group, hlog, hnilw]
  refine ⟨hAND v hnone, ?_, ?_⟩
  · intro hlog
    simp [validate_group, hlog, hnil]
  · intro db groups total fN sN tN gid field st grule hlog hrules htype hgid hlook hcontains
    have hsort : sortRulesByOrder field.rules = [grule] := by
      rw [hrules]
      rfl
    have hcp : columnRulePairs reg [grule] = [] := by
      simp [columnRulePairs, htype]
    have hfil : [grule].filter (fun rc => !isColumnRule reg rc) = [grule] := by
      simp [isColumnRule, htype]
    simp only [processField, hcontains, if_true, hsort, hcp, hfil, List.foldl_nil,
      List.isEmpty_cons]
    exact rowloop_group_errors reg groups ⟨fN, sN, field.name, field.is_required⟩
      total grule gid g hgid hlook (fun w => hAND w hnone hlog) _ st

/-- Witness for C10: the all-unresolved AND group gVac evaluated against the
empty registry reports the value x invalid with its own name as detail. -/
theorem empty_group_vacuous_and_witness :
    (∀ rr ∈ gVac.rules, regGet [] rr.id = none)
  ∧ validate_group [] "x" gVac = ⟨false, some "G"⟩ := by
  have hnone : ∀ rr ∈ gVac.rules, regGet ([] : Registry) rr.id = none := by
    intro rr hrr
    simp [gVac] at hrr
    subst hrr
    rfl
  exact ⟨hnone, (empty_group_vacuous_and [] "x" gVac hnone).1 rfl⟩

/-- Unfolding of applyUpserts on a cons. -/
theorem applyUpserts_cons {ρ : Type} (t : List (String × ρ)) (op : String × ρ)
    (rest : List (String × ρ)) :
    applyUpserts t (op :: rest) = applyUpserts (upsert op.1 op.2 t) rest := rfl

/-- Lookup after one upsert. -/
theorem alookup_upsert {ρ : Type} (k0 k : String) (v : ρ) (t : List (String × ρ)) :
    alookup k (upsert k0 v t) = if k0 = k then some v else alookup k t := by
  induction t with
  | nil => simp [upsert, alookup]
  | cons p t ih =>
    by_cases hp : p.1 = k0
    · by_cases hk : k0 = k
      · simp [upsert, hp, alookup, hk]
      · simp [upsert, hp, alookup, hk]
    · simp only [upsert, if_neg hp, alookup]
      by_cases h2 : p.1 = k
      · have hne : ¬(k0 = k) := fun hk => hp (h2.trans hk.symm)
        simp [h2, hne]
      · simp [h2, ih]

/-- Upserting a present key leaves the key column unchanged. -/
theorem keys_upsert_mem {ρ : Type} (k : String) (v : ρ) (t : List (String × ρ))
    (h : k ∈ t.map Prod.fst) : (upsert k v t).map Prod.fst = t.map Prod.fst := by
  induction t with
  | nil => simp at h
  | cons p t ih =>
    by_cases hp : p.1 = k
    · simp [upsert, hp]
    · simp only [List.map_cons, List.mem_cons] at h
      rcases h with h1 | h1
      · exact absurd h1.symm hp
      · simp [upsert, hp, ih h1]

/-- Upserting an absent key appends it to the key column. -/
theorem keys_upsert_not_mem {ρ : Type} (k : String) (v : ρ) (t : List (String × ρ))
    (h : k ∉ t.map Prod.fst) :
    (upsert k v t).map Prod.fst = t.map Prod.fst ++ [k] := by
  induction t with
  | nil => simp [upsert]
  | cons p t ih =>
    simp only [List.map_cons, List.mem_cons, not_or] at h
    have hp : ¬(p.1 = k) := fun hh => h.1 hh.symm
    simp [upsert, hp, ih h.2]

/-- An upsert can only grow the key set. -/
theorem keys_upsert_superset {ρ : Type} (k0 : String) (v : ρ) (t : List (String × ρ))
    (k : String) (h : k ∈ t.map Prod.fst ∨ k = k0) :
    k ∈ (upsert k0 v t).map Prod.fst := by
  by_cases hm : k0 ∈ t.map Prod.fst
  · rw [keys_upsert_mem k0 v t hm]
    rcases h with h | rfl
    · exact h
    · exact hm
  · rw [keys_upsert_not_mem k0 v t hm]
    rcases h with h | rfl
    · exact List.mem_append_left _ h
    · exact List.mem_append_right _ (List.mem_singleton_self _)

/-- A sequence of upserts can only grow the key set. -/
theorem keys_applyUpserts_superset {ρ : Type} (ops : List (String × ρ)) :
    ∀ (t : List (String × ρ)) (k : String), k ∈ t.map Prod.fst →
      k ∈ (applyUpserts t ops).map Prod.fst := by
  induction ops with
  | nil => intro t k h; exact h
  | cons op rest ih =>
    intro t k h
    rw [applyUpserts_cons]
    exact ih _ k (keys_upsert_superset op.1 op.2 t k (Or.inl h))

/-- Every written key is present after the sequence of upserts. -/
theorem opkeys_applyUpserts {ρ : Type} (ops : List (String × ρ)) :
    ∀ (t : List (String × ρ)) (op : String × ρ), op ∈ ops →
      op.1 ∈ (applyUpserts t ops).map Prod.fst := by
  induction ops with
  | nil => intro t op h; simp at h
  | cons o rest ih =>
    intro t op h
    rw [applyUpserts_cons]
    rcases List.mem_cons.mp h with rfl | h2
    · exact keys_applyUpserts_superset rest _ _
        (keys_upsert_superset op.1 op.2 t op.1 (Or.inr rfl))
    · exact ih _ op h2

/-- Upserts whose keys are all present leave the key column unchanged. -/
theorem keys_applyUpserts_of_subset {ρ : Type} (ops : List (String × ρ)) :
    ∀ (t : List (String × ρ)), (∀ op ∈ ops, op.1 ∈ t.map Prod.fst) →
      (applyUpserts t ops).map Prod.fst = t.map Prod.fst := by
  induction ops with
  | nil => intro t h; rfl
  | cons o rest ih =>
    intro t h
    rw [applyUpserts_cons]
    have hk := keys_upsert_mem o.1 o.2 t (h o (List.mem_cons_self _ _))
    calc (applyUpserts (upsert o.1 o.2 t) rest).map Prod.fst
        = (upsert o.1 o.2 t).map Prod.fst := by
          refine ih _ (fun op hop => ?_)
          rw [hk]
          exact h op (List.mem_cons_of_mem _ hop)
      _ = t.map Prod.fst := hk

/-- An upsert preserves distinctness of the key column. -/
theorem nodup_keys_upsert {ρ : Type} (k : String) (v : ρ) (t : List (String × ρ))
    (h : (t.map Prod.fst).Nodup) : ((upsert k v t).map Prod.fst).Nodup := by
  by_cases hm : k ∈ t.map Prod.fst
  · rw [keys_upsert_mem k v t hm]
    exact h
  · rw [keys_upsert_not_mem k v t hm]
    simp [List.nodup_append, h, hm]

/-- A sequence of upserts preserves distinctness of the key column. -/
theorem nodup_keys_applyUpserts {ρ : Type} (ops : List (String × ρ)) :
    ∀ (t : List (String × ρ)), (t.map Prod.fst).Nodup →
      ((applyUpserts t ops).map Prod.fst).Nodup := by
  induction ops with
  | nil => intro t h; exact h
  | cons o rest ih =>
    intro t h
    rw [applyUpserts_cons]
    exact ih _ (nodup_keys_upsert o.1 o.2 t h)

/-- An absent key looks up to nothing. -/
theorem alookup_not_mem {ρ : Type} (k : String) (t : List (String × ρ))
    (h : k ∉ t.map Prod.fst) : alookup k t = none := by
  induction t with
  | nil => rfl
  | cons p t ih =>
    simp only [List.map_cons, List.mem_cons, not_or] at h
    have hp : ¬(p.1 = k) := fun hh => h.1 hh.symm
    simp [alookup, hp, ih h.2]

/-- Lookup across an append prefers the left list. -/
theorem alookup_append {ρ : Type} (k : String) (l₁ l₂ : List (String × ρ)) :
    alookup k (l₁ ++ l₂) = (alookup k l₁).elim (alookup k l₂) some := by
  induction l₁ with
  | nil => simp [alookup]
  | cons p t ih =>
    by_cases hp : p.1 = k
    · simp [alookup, hp]
    · simp [alookup, hp, ih]

/-- Lookup after a sequence of upserts is the last write when there is one, the
original binding otherwise. -/
theorem alookup_applyUpserts {ρ : Type} (ops : List (String × ρ)) :
    ∀ (t : List (String × ρ)) (k : String),
      alookup k (applyUpserts t ops) = (alookup k ops.reverse).elim (alookup k t) some := by
  induction ops with
  | nil => intro t k; simp [applyUpserts, alookup]
  | cons op rest ih =>
    intro t k
    rw [applyUpserts_cons, ih, List.reverse_cons, alookup_append]
    cases hres : alookup k rest.reverse with
    | some v => simp
    | none =>
      simp only [Option.elim_none]
      rw [alookup_upsert]
      by_cases hop : op.1 = k <;> simp [alookup, hop]

/-- Tables with distinct keys agreeing on key order and on every lookup are
equal. -/
theorem alist_ext {ρ : Type} : ∀ (t₁ t₂ : List (String × ρ)),
    (t₁.map Prod.fst).Nodup → t₁.map Prod.fst = t₂.map Prod.fst →
    (∀ k, alookup k t₁ = alookup k t₂) → t₁ = t₂ := by
  intro t₁
  induction t₁ with
  | nil =>
    intro t₂ _ hk _
    cases t₂ with
    | nil => rfl
    | cons q t2 => simp at hk
  | cons p t ih =>
    intro t₂ hnd hk hl
    cases t₂ with
    | nil => simp at hk
    | cons q t2 =>
      simp only [List.map_cons, List.cons.injEq] at hk
      obtain ⟨hpq, htk⟩ := hk
      have hq1 : q.1 = p.1 := hpq.symm
      have hv : p.2 = q.2 := by
        have hlp := hl p.1
        simp [alookup, hq1] at hlp
        exact hlp
      rw [List.map_cons] at hnd
      have hnd' := List.nodup_cons.mp hnd
      have hql : ∀ k, alookup k t = alookup k t2 := by
        intro k
        by_cases hk2 : k = p.1
        · subst hk2
          rw [alookup_not_mem _ _ hnd'.1, alookup_not_mem _ _ (htk ▸ hnd'.1)]
        · have hlp := hl k
          have hp : ¬(p.1 = k) := fun hh => hk2 hh.symm
          have hq : ¬(q.1 = k) := fun hh => hk2 (hq1 ▸ hh).symm
          simpa [alookup, hp, hq] using hlp
      have ht : t = t2 := ih t2 hnd'.2 htk hql
      have hpq2 : p = q := by
        cases p
        cases q
        simp_all
      rw [hpq2, ht]

/-- Replaying the same upsert sequence is the identity on its own result. -/
theorem applyUpserts_idem {ρ : Type} (t : List (String × ρ))
    (ops : List (String × ρ)) (h : (t.map Prod.fst).Nodup) :
    applyUpserts (applyUpserts t ops) ops = applyUpserts t ops := by
  have hnd := nodup_keys_applyUpserts ops t h
  apply alist_ext _ _ (nodup_keys_applyUpserts ops _ hnd)
  · exact keys_applyUpserts_of_subset ops _ (fun op hop => opkeys_applyUpserts ops t op hop)
  · intro k
    rw [alookup_applyUpserts, alookup_applyUpserts]
    cases hres : alookup k ops.reverse with
    | some v => simp
    | none => simp [alookup_applyUpserts, hres]

/-- Claim C7: submitting the same full-structure upsert twice leaves the stored
structure identical to submitting it once, and the structural tables keep
distinct entity ids — no duplicate sheet, field or rule rows appear. -/
theorem update_project_idempotent (db : StructDB) (p : Project)
    (hs : (db.sheets.map Prod.fst).Nodup)
    (hf : (db.fields.map Prod.fst).Nodup)
    (hr : (db.rules.map Prod.fst).Nodup) :
    update_project_in_db (update_project_in_db db p) p = update_project_in_db db p
  ∧ ((update_project_in_db db p).sheets.map Prod.fst).Nodup
  ∧ ((update_project_in_db db p).fields.map Prod.fst).Nodup
  ∧ ((update_project_in_db db p).rules.map Prod.fst).Nodup := by
  refine ⟨?_, nodup_keys_applyUpserts _ _ hs, nodup_keys_applyUpserts _ _ hf,
    nodup_keys_applyUpserts _ _ hr⟩
  simp only [update_project_in_db]
  rw [applyUpserts_idem _ _ hs, applyUpserts_idem _ _ hf, applyUpserts_idem _ _ hr]

/-- Witness for C7: the one-sheet snapshot applied twice to the empty structural
database equals applying it once. -/
theorem update_project_idempotent_witness :
    ((dbNil.sheets.map Prod.fst).Nodup ∧ (dbNil.fields.map Prod.fst).Nodup
      ∧ (dbNil.rules.map Prod.fst).Nodup)
  ∧ update_project_in_db (update_project_in_db dbNil projUp) projUp
      = update_project_in_db dbNil projUp :=
  ⟨⟨by decide, by decide, by decide⟩,
   (update_project_idempotent dbNil projUp (by decide) (by decide) (by decide)).1⟩

/-- Folding preserves a predicate preserved by every step. -/
theorem foldl_preserves {σ α : Type} (Q : σ → Prop) (f : σ → α → σ) :
    ∀ (l : List α) (s : σ), (∀ s a, a ∈ l → Q s → Q (f s a)) → Q s → Q (l.foldl f s) := by
  intro l
  induction l with
  | nil => intro s _ hs; exact hs
  | cons a l ih =>
    intro s h hs
    exact ih _ (fun s b hb hq => h s b (List.mem_cons_of_mem _ hb) hq)
      (h s a (List.mem_cons_self _ _) hs)

/-- Folding steps of known processed increments adds their sum. -/
theorem foldl_processed {α : Type} (f : RunState → α → RunState) (c : α → Nat) :
    ∀ (l : List α) (st : RunState),
      (∀ st a, a ∈ l → (f st a).processed = st.processed + c a) →
      (l.foldl f st).processed = st.processed + (l.map c).sum := by
  intro l
  induction l with
  | nil => intro st _; simp
  | cons a l ih =>
    intro st h
    rw [List.foldl_cons, ih _ (fun st b hb => h st b (List.mem_cons_of_mem _ hb)),
      h st a (List.mem_cons_self _ _)]
    simp [Nat.add_assoc]

/-- Sum of a constant map. -/
theorem sum_map_const_nat {α : Type} (c : Nat) : ∀ (l : List α),
    (l.map (fun _ => c)).sum = l.length * c := by
  intro l
  induction l with
  | nil => simp
  | cons a l ih => simp [ih, Nat.succ_mul, Nat.add_comm]

/-- Accumulating fold of additions as a sum. -/
theorem foldl_add_map_sum {α : Type} (g : α → Nat) : ∀ (l : List α) (a : Nat),
    l.foldl (fun acc x => acc + g x) a = a + (l.map g).sum := by
  intro l
  induction l with
  | nil => intro a; simp
  | cons x l ih =>
    intro a
    rw [List.foldl_cons, ih]
    simp [Nat.add_assoc]

/-- Distributing a constant factor out of a mapped sum. -/
theorem sum_map_mul_right_nat {α : Type} (g : α → Nat) (c : Nat) : ∀ (l : List α),
    (l.map (fun x => g x * c)).sum = (l.map g).sum * c := by
  intro l
  induction l with
  | nil => simp
  | cons x l ih => simp [ih, Nat.add_mul]

/-- The member delivered by getLast? belongs to the list. -/
theorem mem_of_getLast? {α : Type} : ∀ (l : List α) (a : α), l.getLast? = some a → a ∈ l := by
  intro l
  induction l with
  | nil => intro a h; simp at h
  | cons x xs ih =>
    intro a h
    cases xs with
    | nil =>
      simp only [List.getLast?_singleton, Option.some.injEq] at h
      simp [h]
    | cons y ys =>
      rw [List.getLast?_cons_cons] at h
      exact List.mem_cons_of_mem _ (ih a h)

/-- Appending a dominating element keeps the processed chain monotone. -/
theorem chain_map_append_last (l : List StatusUpdate) (x : StatusUpdate)
    (hc : List.Chain' (fun a b => a ≤ b) (l.map (fun u => u.processed_rows)))
    (hlast : ∀ u ∈ l, u.processed_rows ≤ x.processed_rows) :
    List.Chain' (fun a b => a ≤ b) ((l ++ [x]).map (fun u => u.processed_rows)) := by
  rw [List.map_append]
  refine List.Chain'.append hc (List.chain'_singleton _) ?_
  intro a ha b hb
  simp only [List.map_cons, List.map_nil, List.head?_cons, Option.mem_def,
    Option.some.injEq] at hb
  obtain ⟨u, hu, rfl⟩ := List.mem_map.mp (mem_of_getLast? _ _ ha)
  rw [← hb]
  exact hlast u hu

/-- emitAndCount preserves the trace invariant. -/
theorem traceOK_emitAndCount (total : Nat) (errs : List ValidationError) (n : Nat)
    (st : RunState) (h : TraceOK total st) : TraceOK total (emitAndCount errs n st) := by
  obtain ⟨h1, h2, h3⟩ := h
  exact ⟨h1, h2, fun u hu => Nat.le_trans (h3 u hu) (Nat.le_add_right _ _)⟩

/-- A status write preserves the trace invariant. -/
theorem traceOK_pushUpdate (total : Nat) (st : RunState) (h : TraceOK total st) :
    TraceOK total (pushUpdate total st) := by
  obtain ⟨h1, h2, h3⟩ := h
  refine ⟨?_, ?_, ?_⟩
  · intro u hu
    simp only [pushUpdate, List.mem_append, List.mem_singleton] at hu
    rcases hu with hu | rfl
    · exact h1 u hu
    · rfl
  · exact chain_map_append_last _ _ h2 (fun u hu => h3 u hu)
  · intro u hu
    simp only [pushUpdate, List.mem_append, List.mem_singleton] at hu
    rcases hu with hu | rfl
    · exact h3 u hu
    · exact Nat.le_refl _

/-- A column-mode rule step preserves the trace invariant. -/
theorem traceOK_columnRuleStep (total : Nat) (col : List (Nat × String)) (rd : RuleDef)
    (params : PMap) (st : RunState) (h : TraceOK total st) :
    TraceOK total (columnRuleStep total col rd params st) :=
  traceOK_pushUpdate _ _ (traceOK_emitAndCount _ _ _ _ h)

/-- A row step preserves the trace invariant. -/
theorem traceOK_rowStep (reg : Registry) (groups : List (String × RuleGroup))
    (ctx : ErrCtx) (total : Nat) (row_rules : List Rule) (st : RunState)
    (row : Nat × String) (h : TraceOK total st) :
    TraceOK total (rowStep reg groups ctx total row_rules st row) := by
  refine traceOK_pushUpdate _ _ ?_
  exact foldl_preserves (TraceOK total) _ row_rules st
    (fun s rc _ hq => traceOK_emitAndCount _ _ _ _ hq) h

/-- Processing one field preserves the trace invariant. -/
theorem traceOK_processField (db : RunDB) (reg : Registry)
    (groups : List (String × RuleGroup)) (total : Nat) (fN sN tN : String)
    (field : FieldSchema) (st : RunState) (h : TraceOK total st) :
    TraceOK total (processField db reg groups total fN sN tN field st) := by
  simp only [processField]
  split
  · split
    · exact foldl_preserves (TraceOK total) _ _ st
        (fun s pr _ hq => traceOK_columnRuleStep _ _ _ _ _ hq) h
    · refine foldl_preserves (TraceOK total) _ _ _
        (fun s row _ hq => traceOK_rowStep _ _ _ _ _ _ _ hq) ?_
      exact foldl_preserves (TraceOK total) _ _ st
        (fun s pr _ hq => traceOK_columnRuleStep _ _ _ _ _ hq) h
  · exact h

/-- Processing one sheet preserves the trace invariant. -/
theorem traceOK_processSheet (db : RunDB) (reg : Registry)
    (groups : List (String × RuleGroup)) (total : Nat) (fN : String)
    (st : RunState) (sheet : SheetSchema) (h : TraceOK total st) :
    TraceOK total (processSheet db reg groups total fN st sheet) := by
  simp only [processSheet]
  split
  · exact h
  · split
    · exact h
    · split
      · exact h
      · exact foldl_preserves (TraceOK total) _ _ st
          (fun s fd _ hq => traceOK_processField _ _ _ _ _ _ _ _ _ hq) h

/-- The whole running loop maintains the trace invariant. -/
theorem traceOK_runCore (db : RunDB) (reg : Registry)
    (groups : List (String × RuleGroup)) (project : Project) :
    TraceOK (totalOperations db project) (runValidationCore db reg groups project) := by
  simp only [runValidationCore]
  refine foldl_preserves (TraceOK (totalOperations db project)) _ project.files _
    (fun s f _ hq => foldl_preserves (TraceOK (totalOperations db project)) _ f.sheets _
      (fun s2 sh _ hq2 => traceOK_processSheet _ _ _ _ _ _ _ hq2) hq) ?_
  exact ⟨fun u hu => absurd hu (List.not_mem_nil u), List.chain'_nil,
    fun u hu => absurd hu (List.not_mem_nil u)⟩

/-- Counterexample to claim C6: a run of one row and one rule writes percentage
processed/total*100 = 100 after its only batch, where min(99%,
processed/total*100) would be 99 — no cap is applied. -/
theorem percentage_not_capped :
    totalOperations dbC6 projC6 = 1
  ∧ (runValidationCore dbC6 regRow [] projC6).trace.map (fun u => u.percentage)
      = [statusPct 1 1]
  ∧ statusPct 1 1 = 100
  ∧ min (99 : ℚ) (statusPct 1 1) ≠ statusPct 1 1 := by
  refine ⟨by decide, rfl, ?_, ?_⟩
  · norm_num [statusPct]
  · norm_num [statusPct]

/-- Claim C6 as amended: after each status write during the run the percentage
equals processed/total*100 when the total is positive and 0 otherwise — no
99-percent cap exists — and the completion write sets exactly 100 while keeping
the final processed count. -/
theorem status_percentage_formula (db : RunDB) (reg : Registry)
    (groups : List (String × RuleGroup)) (project : Project) :
    (∀ u ∈ (runValidationCore db reg groups project).trace,
      u.percentage = statusPct (totalOperations db project) u.processed_rows)
  ∧ (runValidation db reg groups project).trace.getLast?
      = some ⟨(runValidationCore db reg groups project).processed, 100⟩ := by
  refine ⟨(traceOK_runCore db reg groups project).1, ?_⟩
  simp only [runValidation]
  exact List.getLast?_concat _

/-- Witness for the amended C6: the single write of the one-row run satisfies
the fraction formula. -/
theorem status_percentage_formula_witness :
    (⟨1, statusPct 1 1⟩ : StatusUpdate) ∈ (runValidationCore dbC6 regRow [] projC6).trace
  ∧ (⟨1, statusPct 1 1⟩ : StatusUpdate).percentage
      = statusPct (totalOperations dbC6 projC6)
          (⟨1, statusPct 1 1⟩ : StatusUpdate).processed_rows := by
  have hmem : (⟨1, statusPct 1 1⟩ : StatusUpdate)
      ∈ (runValidationCore dbC6 regRow [] projC6).trace :=
    show _ ∈ [(⟨1, statusPct 1 1⟩ : StatusUpdate)] from List.mem_singleton_self _
  exact ⟨hmem, (status_percentage_formula dbC6 regRow [] projC6).1 _ hmem⟩

/-- Insertion grows the length by one. -/
theorem length_insertByOrder (r : Rule) : ∀ (l : List Rule),
    (insertByOrder r l).length = l.length + 1 := by
  intro l
  induction l with
  | nil => rfl
  | cons x xs ih =>
    simp only [insertByOrder]
    split
    · simp [ih]
    · rfl

/-- Sorting preserves the length. -/
theorem length_sortRulesByOrder : ∀ (l : List Rule),
    (sortRulesByOrder l).length = l.length := by
  intro l
  induction l with
  | nil => rfl
  | cons r rs ih => simp [sortRulesByOrder, length_insertByOrder, ih]

/-- Members after insertion are the inserted rule or old members. -/
theorem mem_insertByOrder (r x : Rule) : ∀ (l : List Rule),
    x ∈ insertByOrder r l → x = r ∨ x ∈ l := by
  intro l
  induction l with
  | nil =>
    intro h
    simp [insertByOrder] at h
    exact Or.inl h
  | cons y ys ih =>
    intro h
    simp only [insertByOrder] at h
    split at h
    · rcases List.mem_cons.mp h with rfl | h2
      · exact Or.inr (List.mem_cons_self _ _)
      · rcases ih h2 with h3 | h3
        · exact Or.inl h3
        · exact Or.inr (List.mem_cons_of_mem _ h3)
    · rcases List.mem_cons.mp h with rfl | h2
      · exact Or.inl rfl
      · exact Or.inr h2

/-- Members of the sorted list were members of the original. -/
theorem mem_sortRulesByOrder (x : Rule) : ∀ (l : List Rule),
    x ∈ sortRulesByOrder l → x ∈ l := by
  intro l
  induction l with
  | nil => intro h; simp [sortRulesByOrder] at h
  | cons r rs ih =>
    intro h
    rcases mem_insertByOrder r x _ h with rfl | h2
    · exact List.mem_cons_self _ _
    · exact List.mem_cons_of_mem _ (ih h2)

/-- The column/row split covers the rules exactly once. -/
theorem partition_rules_length (reg : Registry) : ∀ (l : List Rule),
    (columnRulePairs reg l).length
      + (l.filter (fun rc => !isColumnRule reg rc)).length = l.length := by
  intro l
  induction l with
  | nil => rfl
  | cons rc l ih =>
    by_cases hc : isColumnRule reg rc = true
    · have hpair : ∃ rd,
          columnRulePairs reg (rc :: l) = (rc, rd) :: columnRulePairs reg l := by
        cases ht : rc.type with
        | none =>
          simp only [isColumnRule, ht] at hc
          exact absurd hc (by decide)
        | some t =>
          cases hr : regGet reg t with
          | none =>
            simp only [isColumnRule, ht, hr] at hc
            exact absurd hc (by decide)
          | some rd =>
            simp only [isColumnRule, ht, hr] at hc
            exact ⟨rd, by simp [columnRulePairs, List.filterMap_cons, ht, hr, hc]⟩
      obtain ⟨rd, hp⟩ := hpair
      have hfc : List.filter (fun rc => !isColumnRule reg rc) (rc :: l)
          = List.filter (fun rc => !isColumnRule reg rc) l := by
        simp [List.filter_cons, hc]
      rw [hp, hfc]
      simp only [List.length_cons]
      omega
    · have hb : isColumnRule reg rc = false := by
        simp only [Bool.not_eq_true] at hc
        exact hc
      have hnp : columnRulePairs reg (rc :: l) = columnRulePairs reg l := by
        cases ht : rc.type with
        | none => simp [columnRulePairs, List.filterMap_cons, ht]
        | some t =>
          cases hr : regGet reg t with
          | none => simp [columnRulePairs, List.filterMap_cons, ht, hr]
          | some rd =>
            have hbn : rd.needs_column_access = false := by
              simp only [isColumnRule, ht, hr] at hb
              exact hb
            simp [columnRulePairs, List.filterMap_cons, ht, hr, hbn]
      have hfc : List.filter (fun rc => !isColumnRule reg rc) (rc :: l)
          = rc :: List.filter (fun rc => !isColumnRule reg rc) l := by
        simp [List.filter_cons, hb]
      rw [hnp, hfc]
      simp only [List.length_cons]
      omega

/-- A rule with a type or a group id advances the processed counter. -/
theorem rowRuleOutcome_counted (reg : Registry) (groups : List (String × RuleGroup))
    (ctx : ErrCtx) (rc : Rule) (row_id : Nat) (value : String)
    (h : ¬(rc.type = none ∧ rc.group_id = none)) :
    (rowRuleOutcome reg groups ctx rc row_id value).2 = true := by
  rcases hg : rc.group_id with _ | gid
  · rcases ht : rc.type with _ | t
    · exact absurd ⟨ht, hg⟩ h
    · simp only [rowRuleOutcome, hg, ht]
      cases regGet reg t with
      | none => rfl
      | some rd =>
        by_cases hvalid :
            coerceIsValid (rd.validator value (rc.params.getD [])) = true <;>
          simp [hvalid]
  · simp only [rowRuleOutcome, hg]
    cases alookup gid groups with
    | none => rfl
    | some g =>
      by_cases hvalid : (validate_group reg value g).is_valid = true <;> simp [hvalid]

/-- A row step advances the counter by the number of row rules. -/
theorem rowStep_processed (reg : Registry) (groups : List (String × RuleGroup))
    (ctx : ErrCtx) (total : Nat) (row_rules : List Rule) (st : RunState)
    (row : Nat × String)
    (h : ∀ rc ∈ row_rules, ¬(rc.type = none ∧ rc.group_id = none)) :
    (rowStep reg groups ctx total row_rules st row).processed
      = st.processed + row_rules.length := by
  have hfold := foldl_processed
    (fun s rc =>
      emitAndCount (rowRuleOutcome reg groups ctx rc row.1 row.2).1
        (if (rowRuleOutcome reg groups ctx rc row.1 row.2).2 = true then 1 else 0) s)
    (fun _ => 1) row_rules st
    (fun s rc hrc => by
      simp [emitAndCount, rowRuleOutcome_counted reg groups ctx rc row.1 row.2 (h rc hrc)])
  calc (rowStep reg groups ctx total row_rules st row).processed
      = (row_rules.foldl (fun s rc =>
          emitAndCount (rowRuleOutcome reg groups ctx rc row.1 row.2).1
            (if (rowRuleOutcome reg groups ctx rc row.1 row.2).2 = true then 1 else 0) s)
          st).processed := rfl
    _ = st.processed + (row_rules.map (fun _ => 1)).sum := hfold
    _ = st.processed + row_rules.length := by simp [sum_map_const_nat]

/-- A column-mode rule step advances the counter by the column length. -/
theorem columnRuleStep_processed (total : Nat) (col : List (Nat × String))
    (rd : RuleDef) (params : PMap) (st : RunState) :
    (columnRuleStep total col rd params st).processed = st.processed + col.length := rfl

/-- Processing one field whose column exists advances the counter by
rules x rows. -/
theorem processField_processed (db : RunDB) (reg : Registry)
    (groups : List (String × RuleGroup)) (total : Nat) (fN sN tN : String)
    (field : FieldSchema) (st : RunState)
    (hcontains :
      (db.tableCols tN).contains (normalize_name_for_sqlite field.name) = true)
    (hxor : ∀ rc ∈ field.rules, ¬(rc.type = none ∧ rc.group_id = none)) :
    (processField db reg groups total fN sN tN field st).processed
      = st.processed + field.rules.length
          * (db.tableColumn tN (normalize_name_for_sqlite field.name)).length := by
  have hcolfold := foldl_processed
    (fun s pr => columnRuleStep total
      (db.tableColumn tN (normalize_name_for_sqlite field.name)) pr.2
      (pr.1.params.getD []) s)
    (fun _ => (db.tableColumn tN (normalize_name_for_sqlite field.name)).length)
    (columnRulePairs reg (sortRulesByOrder field.rules)) st
    (fun s pr _ => columnRuleStep_processed total _ pr.2 (pr.1.params.getD []) s)
  have hpart := partition_rules_length reg (sortRulesByOrder field.rules)
  rw [length_sortRulesByOrder] at hpart
  simp only [processField, hcontains, if_true]
  split
  · -- no row rules
    rename_i hemp
    rw [hcolfold, sum_map_const_nat]
    have hflen :
        ((sortRulesByOrder field.rules).filter (fun rc => !isColumnRule reg rc)).length
          = 0 := by
      rw [List.isEmpty_iff] at hemp
      simp [hemp]
    rw [hflen] at hpart
    rw [Nat.add_zero] at hpart
    rw [hpart]
  · -- row rules streamed over the column
    have hrowfold := fun (st2 : RunState) => foldl_processed
      (rowStep reg groups ⟨fN, sN, field.name, field.is_required⟩ total
        ((sortRulesByOrder field.rules).filter (fun rc => !isColumnRule reg rc)))
      (fun _ =>
        ((sortRulesByOrder field.rules).filter (fun rc => !isColumnRule reg rc)).length)
      (db.tableColumn tN (normalize_name_for_sqlite field.name)) st2
      (fun s row _ => rowStep_processed reg groups _ total _ s row
        (fun rc hrc =>
          hxor rc (mem_sortRulesByOrder rc _ (List.mem_of_mem_filter hrc))))
    rw [hrowfold _, hcolfold, sum_map_const_nat, sum_map_const_nat]
    calc st.processed
          + (columnRulePairs reg (sortRulesByOrder field.rules)).length
            * (db.tableColumn tN (normalize_name_for_sqlite field.name)).length
          + (db.tableColumn tN (normalize_name_for_sqlite field.name)).length
            * ((sortRulesByOrder field.rules).filter
                (fun rc => !isColumnRule reg rc)).length
        = st.processed
          + ((columnRulePairs reg (sortRulesByOrder field.rules)).length
              + ((sortRulesByOrder field.rules).filter
                  (fun rc => !isColumnRule reg rc)).length)
            * (db.tableColumn tN (normalize_name_for_sqlite field.name)).length := by
          ring
      _ = st.processed + field.rules.length
            * (db.tableColumn tN (normalize_name_for_sqlite field.name)).length := by
          rw [hpart]

/-- Processing one sheet advances the counter by its total_operations
contribution, assuming its metadata and data table are consistent. -/
theorem processSheet_processed (db : RunDB) (reg : Registry)
    (groups : List (String × RuleGroup)) (total : Nat) (fN : String)
    (st : RunState) (sheet : SheetSchema)
    (hmeta : sheet.is_active = true →
      ∃ m, db.sheetMeta sheet.id = some m ∧ ∃ tn, m.data_table_name = some tn ∧
        ∀ fd ∈ sheet.fields,
          (db.tableCols tn).contains (normalize_name_for_sqlite fd.name) = true ∧
          (db.tableColumn tn (normalize_name_for_sqlite fd.name)).length = m.row_count)
    (hxor : ∀ fd ∈ sheet.fields, ∀ rc ∈ fd.rules,
      ¬(rc.type = none ∧ rc.group_id = none)) :
    (processSheet db reg groups total fN st sheet).processed
      = st.processed + sheetContribution db sheet := by
  by_cases hact : sheet.is_active = true
  · obtain ⟨m, hm, tn, htn, hfd⟩ := hmeta hact
    simp only [processSheet, sheetContribution, hact, hm, htn, Bool.not_true,
      Bool.false_eq_true, if_false]
    have hff := foldl_processed
      (fun s f => processField db reg groups total fN sheet.name tn f s)
      (fun fd => fd.rules.length * m.row_count) sheet.fields st
      (fun s fd hfd2 => by
        rw [processField_processed db reg groups total fN sheet.name tn fd s
          (hfd fd hfd2).1 (hxor fd hfd2), (hfd fd hfd2).2])
    rw [hff, sum_map_mul_right_nat]
    have hcount : sheetRuleCount sheet
        = (sheet.fields.map (fun fd => fd.rules.length)).sum := by
      simp [sheetRuleCount, foldl_add_map_sum]
    rw [hcount, Nat.mul_comm]
  · have hact2 : sheet.is_active = false := by
      simp only [Bool.not_eq_true] at hact
      exact hact
    simp [processSheet, sheetContribution, hact2]

/-- Total operations as a sum of per-sheet contributions. -/
theorem totalOperations_eq_sum (db : RunDB) (project : Project) :
    totalOperations db project
      = (project.files.map
          (fun f => (f.sheets.map (sheetContribution db)).sum)).sum := by
  have haux : ∀ (l : List FileSchema) (a : Nat),
      l.foldl (fun acc f =>
        f.sheets.foldl (fun acc2 s => acc2 + sheetContribution db s) acc) a
        = a + (l.map (fun f => (f.sheets.map (sheetContribution db)).sum)).sum := by
    intro l
    induction l with
    | nil => intro a; simp
    | cons f l ih =>
      intro a
      rw [List.foldl_cons, foldl_add_map_sum, ih]
      simp [Nat.add_assoc]
  simp [totalOperations, haux]

/-- The running loops process exactly the computed workload when the stored
metadata, the data tables and the rules are consistent. -/
theorem runCore_processed (db : RunDB) (reg : Registry)
    (groups : List (String × RuleGroup)) (project : Project)
    (hcons : ∀ f ∈ project.files, ∀ s ∈ f.sheets, s.is_active = true →
      ∃ m, db.sheetMeta s.id = some m ∧ ∃ tn, m.data_table_name = some tn ∧
        ∀ fd ∈ s.fields,
          (db.tableCols tn).contains (normalize_name_for_sqlite fd.name) = true ∧
          (db.tableColumn tn (normalize_name_for_sqlite fd.name)).length = m.row_count)
    (hxor : ∀ f ∈ project.files, ∀ s ∈ f.sheets, ∀ fd ∈ s.fields, ∀ rc ∈ fd.rules,
      ¬(rc.type = none ∧ rc.group_id = none)) :
    (runValidationCore db reg groups project).processed
      = totalOperations db project := by
  have hfiles := foldl_processed
    (fun st f => f.sheets.foldl
      (processSheet db reg groups (totalOperations db project) f.name) st)
    (fun f => (f.sheets.map (sheetContribution db)).sum) project.files ⟨0, [], []⟩
    (fun st f hf => foldl_processed
      (processSheet db reg groups (totalOperations db project) f.name)
      (sheetContribution db) f.sheets st
      (fun st2 s hs => processSheet_processed db reg groups
        (totalOperations db project) f.name st2 s
        (fun hact => hcons f hf s hs hact)
        (fun fd hfd rc hrc => hxor f hf s hs fd hfd rc hrc)))
  calc (runValidationCore db reg groups project).processed
      = (0 : Nat) + (project.files.map
          (fun f => (f.sheets.map (sheetContribution db)).sum)).sum := hfiles
    _ = totalOperations db project := by
        rw [Nat.zero_add, ← totalOperations_eq_sum]

/-- Claim C9: over one run the processed-operation counter written to the Status
Tracker is non-decreasing, and — when every active sheet has consistent
metadata, a data table carrying each field's column with exactly row_count rows,
and every rule carries a type or a group id — the counter at successful
completion equals the computed total_operations (both are 0 when the workload is
zero; the source applies no nominal substitute). -/
theorem run_progress (db : RunDB) (reg : Registry)
    (groups : List (String × RuleGroup)) (project : Project)
    (hcons : ∀ f ∈ project.files, ∀ s ∈ f.sheets, s.is_active = true →
      ∃ m, db.sheetMeta s.id = some m ∧ ∃ tn, m.data_table_name = some tn ∧
        ∀ fd ∈ s.fields,
          (db.tableCols tn).contains (normalize_name_for_sqlite fd.name) = true ∧
          (db.tableColumn tn (normalize_name_for_sqlite fd.name)).length = m.row_count)
    (hxor : ∀ f ∈ project.files, ∀ s ∈ f.sheets, ∀ fd ∈ s.fields, ∀ rc ∈ fd.rules,
      ¬(rc.type = none ∧ rc.group_id = none)) :
    List.Chain' (fun a b => a ≤ b)
      ((runValidation db reg groups project).trace.map (fun u => u.processed_rows))
  ∧ (runValidationCore db reg groups project).processed
      = totalOperations db project := by
  constructor
  · have h := traceOK_runCore db reg groups project
    simp only [runValidation]
    exact chain_map_append_last _ _ h.2.1 (fun u hu => h.2.2 u hu)
  · exact runCore_processed db reg groups project hcons hxor

/-- Witness for C9: the one-row one-rule project processes exactly its computed
workload of one operation. -/
theorem run_progress_witness :
    (∀ f ∈ projC6.files, ∀ s ∈ f.sheets, ∀ fd ∈ s.fields, ∀ rc ∈ fd.rules,
      ¬(rc.type = none ∧ rc.group_id = none))
  ∧ (runValidationCore dbC6 regRow [] projC6).processed
      = totalOperations dbC6 projC6 := by
  have hcons : ∀ f ∈ projC6.files, ∀ s ∈ f.sheets, s.is_active = true →
      ∃ m, dbC6.sheetMeta s.id = some m ∧ ∃ tn, m.data_table_name = some tn ∧
        ∀ fd ∈ s.fields,
          (dbC6.tableCols tn).contains (normalize_name_for_sqlite fd.name) = true ∧
          (dbC6.tableColumn tn (normalize_name_for_sqlite fd.name)).length
            = m.row_count := by
    intro f hf s hs _
    simp only [projC6, List.mem_singleton] at hf
    subst hf
    simp only [List.mem_singleton] at hs
    subst hs
    exact ⟨⟨1, some "t1"⟩, rfl, "t1", rfl, by decide⟩
  exact ⟨by decide, (run_progress dbC6 regRow [] projC6 hcons (by decide)).2⟩

end DQMaster
